import Mathlib

/-!
Verification of violet.nvim's edit-prediction core

A shallow embedding, in Lean 4, of the parts of violet.nvim that the
specification's testable properties talk about:

* the diff engine (`calculateDiff` in `edit-prediction-diff.ts`), built on a
  word-plus-whitespace LCS diff;
* the bounded recent-change history (`ChangeTracker` in `change-tracker.ts`);
* the edit-prediction controller (`EditPredictionController` in
  `edit-prediction.ts`): prompt building, find-text resolution, the
  optimistic-concurrency accept path, the single-flight trigger discipline,
  stale-reply rejection and buffer-scoped dismissal.

Strings are modelled by Lean `String` (a packed `List Char`); character
positions are `Nat` indices into the character sequence, matching the
JavaScript code's use of per-character string indexing.  Asynchronous editor
calls are modelled by explicit state passing over an `EditorState` together
with a trace of emitted `Effect`s, so that "no request is issued" and
"no preview is rendered" become statements about the trace.
-/

namespace Violet

/-! ## Diff engine: data types (edit-prediction-diff.ts) -/

/-- A single change component as returned by the word-diff: a run of text that
is common to both sides, removed from the original, or added by the new text.
(The JS library tags components with `added`/`removed` booleans; at most one
is set, so a three-way sum is the faithful shape.) -/
inductive Change where
  | common (value : List Char)
  | removed (value : List Char)
  | added (value : List Char)
deriving DecidableEq, Repr

/-- `DiffOperation` from edit-prediction-diff.ts: a delete of the half-open
span `[startPos, endPos)` of the original text, or an insert of `text`
anchored after original-text position `insertAfterPos`. -/
inductive DiffOperation where
  | delete (startPos endPos : Nat)
  | insert (text : List Char) (insertAfterPos : Nat)
deriving DecidableEq, Repr

/-! ## Word-plus-whitespace tokenization and LCS diff

`calculateDiff` delegates to `diff.diffWordsWithSpace` from the npm `diff`
package, which is not part of this repository; it is modelled here from the
spec's description (§4.2). -/

/-- First character of a token, with a fallback for the (unreachable) empty
token. -/
def tokenHead : List Char → Char → Char
  | [], fallback => fallback
  | a :: _, _ => a

/-- Modelled from the spec: the tokenizer underlying the external
`diff.diffWordsWithSpace` — "word-plus-whitespace granularity": the input is
cut into maximal runs of whitespace characters and maximal runs of
non-whitespace characters. -/
def tokenize : List Char → List (List Char)
  | [] => []
  | c :: cs =>
    match tokenize cs with
    | [] => [[c]]
    | t :: ts =>
      if (tokenHead t c).isWhitespace = c.isWhitespace then (c :: t) :: ts
      else [c] :: t :: ts

/-- Number of non-common components of a diff script (the quantity an
LCS-style diff minimizes). -/
def scriptCost (l : List Change) : Nat :=
  (l.filter fun c => match c with | .common _ => false | _ => true).length

/-- Modelled from the spec: the token-level core of the external
`diff.diffWordsWithSpace` — "a standard longest-common-subsequence-style word
diff".  Equal heads are emitted as common runs; otherwise the cheaper of
remove-head / add-head is chosen.  `fuel` bounds the recursion
(`as.length + bs.length` suffices); the fuel-exhausted fallback replaces
everything, which keeps every invariant used below. -/
def diffTokens : Nat → List (List Char) → List (List Char) → List Change
  | 0, as, bs => as.map Change.removed ++ bs.map Change.added
  | _ + 1, [], bs => bs.map Change.added
  | _ + 1, a :: as, [] => Change.removed a :: as.map Change.removed
  | fuel + 1, a :: as, b :: bs =>
    if a = b then Change.common a :: diffTokens fuel as bs
    else
      let d1 := Change.removed a :: diffTokens fuel as (b :: bs)
      let d2 := Change.added b :: diffTokens fuel (a :: as) bs
      if scriptCost d1 ≤ scriptCost d2 then d1 else d2

/-- Push one change component onto an already-merged script, coalescing with
the head when both are of the same kind. -/
def mergePush (c : Change) : List Change → List Change
  | [] => [c]
  | d :: ds =>
    match c, d with
    | .common v, .common w => .common (v ++ w) :: ds
    | .removed v, .removed w => .removed (v ++ w) :: ds
    | .added v, .added w => .added (v ++ w) :: ds
    | .common v, .removed w => .common v :: .removed w :: ds
    | .common v, .added w => .common v :: .added w :: ds
    | .removed v, .common w => .removed v :: .common w :: ds
    | .removed v, .added w => .removed v :: .added w :: ds
    | .added v, .common w => .added v :: .common w :: ds
    | .added v, .removed w => .added v :: .removed w :: ds

/-- Modelled from the spec: the run-merging of the external library —
"contiguous runs of unchanged words/whitespace are skipped, runs marked
removed become one Delete ..., runs marked added become one Insert":
adjacent components of the same kind are coalesced into a single run. -/
def mergeChanges : List Change → List Change
  | [] => []
  | c :: cs => mergePush c (mergeChanges cs)

/-- Modelled from the spec: the external `diff.diffWordsWithSpace(a, b)` (npm
package `diff`, not part of this repository): tokenize both texts at
word-plus-whitespace granularity, LCS-diff the token sequences, and merge
contiguous runs of the same kind. -/
def diffWordsWithSpace (originalText newText : List Char) : List Change :=
  let as := tokenize originalText
  let bs := tokenize newText
  mergeChanges (diffTokens (as.length + bs.length) as bs)

/-- The loop body of `calculateDiff` (edit-prediction-diff.ts, lines 36–60):
walk the change components accumulating `originalPosition` over retained and
removed runs only, emitting a `delete` per removed run and an `insert` per
added run. -/
def calculateDiffAux (originalPosition : Nat) : List Change → List DiffOperation
  | [] => []
  | .removed v :: cs =>
    DiffOperation.delete originalPosition (originalPosition + v.length)
      :: calculateDiffAux (originalPosition + v.length) cs
  | .added v :: cs =>
    DiffOperation.insert v originalPosition :: calculateDiffAux originalPosition cs
  | .common v :: cs => calculateDiffAux (originalPosition + v.length) cs

/-- `calculateDiff` from edit-prediction-diff.ts: word-diff the two texts and
convert the change components to delete/insert operations in original-text
character coordinates. -/
def calculateDiff (originalText newText : String) : List DiffOperation :=
  calculateDiffAux 0 (diffWordsWithSpace originalText.toList newText.toList)

/-! ## Applying a diff (modelled from the spec)

The repository never re-applies the operations (they drive preview
rendering), but the spec's round-trip law (§4.2, §8) quantifies over exactly
this application. -/

/-- Modelled from the spec: applying one operation to an evolving copy of the
original text.  Operation positions are original-text coordinates; applying
left-to-right, the copy before the current position has already been edited,
so a stated position is mapped into the copy by the running offset
`delta` = (characters inserted so far) − (characters deleted so far). -/
def applyOp (acc : List Char × Int) (op : DiffOperation) : List Char × Int :=
  match op with
  | .delete s e =>
    (acc.1.take ((s : Int) + acc.2).toNat ++ acc.1.drop ((e : Int) + acc.2).toNat,
     acc.2 - ((e : Int) - (s : Int)))
  | .insert t p =>
    (acc.1.take ((p : Int) + acc.2).toNat ++ t ++ acc.1.drop ((p : Int) + acc.2).toNat,
     acc.2 + (t.length : Int))

/-- Modelled from the spec: "re-assembling the original text by applying all
returned operations in emission order to a copy, left-to-right" (§4.2). -/
def applyOperations (original : List Char) (ops : List DiffOperation) : List Char :=
  (ops.foldl applyOp (original, 0)).1

/-! ## Concatenation views of a change list

`concatKept` is the original-side text of a change script (common and removed
runs); `concatNew` is the new-side text (common and added runs).  A correct
diff of `a` against `b` has `concatKept = a` and `concatNew = b`. -/

/-- Original-side text of a change script: common and removed runs, in order. -/
def concatKept : List Change → List Char
  | [] => []
  | .common v :: cs => v ++ concatKept cs
  | .removed v :: cs => v ++ concatKept cs
  | .added _ :: cs => concatKept cs

/-- New-side text of a change script: common and added runs, in order. -/
def concatNew : List Change → List Char
  | [] => []
  | .common v :: cs => v ++ concatNew cs
  | .removed _ :: cs => concatNew cs
  | .added v :: cs => v ++ concatNew cs

/-- `true` iff every component of the script is a common run. -/
def allCommon (l : List Change) : Bool :=
  l.all fun c => match c with | .common _ => true | _ => false

/-! ## Change History (change-tracker.ts) -/

/-- `BufferChange` from change-tracker.ts. -/
structure BufferChange where
  filePath : String
  startLine : Nat
  endLine : Nat
  startCol : Nat
  endCol : Nat
  oldText : String
  newText : String
  timestamp : Nat
deriving DecidableEq, Repr

/-- The argument of `ChangeTracker.addChange`: a `BufferChange` minus the
server-assigned `timestamp` (TypeScript `Omit<BufferChange, "timestamp">`). -/
structure ChangeInput where
  filePath : String
  startLine : Nat
  endLine : Nat
  startCol : Nat
  endCol : Nat
  oldText : String
  newText : String
deriving DecidableEq, Repr

/-- Attach the server-assigned timestamp (`Date.now()` at insertion). -/
def stamp (c : ChangeInput) (now : Nat) : BufferChange :=
  { filePath := c.filePath, startLine := c.startLine, endLine := c.endLine,
    startCol := c.startCol, endCol := c.endCol, oldText := c.oldText,
    newText := c.newText, timestamp := now }

/-- `ChangeTracker` from change-tracker.ts: the stored change list and the
capacity (`maxChanges`, default 200). -/
structure ChangeTracker where
  changes : List BufferChange
  maxChanges : Nat
deriving DecidableEq, Repr

/-- `ChangeTracker.addChange`: reject empty file paths, append the stamped
change, and on overflow `splice(0, length - maxChanges)` — i.e. drop the
oldest excess entries from the front. -/
def ChangeTracker.addChange (t : ChangeTracker) (c : ChangeInput) (now : Nat) :
    ChangeTracker :=
  if c.filePath = "" then t
  else
    let cs := t.changes ++ [stamp c now]
    if t.maxChanges < cs.length then
      { t with changes := cs.drop (cs.length - t.maxChanges) }
    else
      { t with changes := cs }

/-- A sequence of `addChange` calls, each with its `Date.now()` value. -/
def ChangeTracker.addChanges (t : ChangeTracker) (cs : List (ChangeInput × Nat)) :
    ChangeTracker :=
  cs.foldl (fun t p => t.addChange p.1 p.2) t

/-- The stamped changes of a call sequence that survive the empty-file-path
admission check, in call order. -/
def stampedValid : List (ChangeInput × Nat) → List BufferChange
  | [] => []
  | p :: ps =>
    if p.1.filePath = "" then stampedValid ps
    else stamp p.1 p.2 :: stampedValid ps

/-! ## JavaScript string primitives

The controller uses `String.prototype.split`/`join`, `includes`, `indexOf`
and `slice`; these are modelled here over `List Char` with explicit fuel
(structural recursion, so the kernel can evaluate them). -/

/-- JS `String.prototype.split` with a non-empty string separator: cut at
each leftmost non-overlapping occurrence.  `fuel ≥ s.length` makes the
fallback unreachable. -/
def splitGo (sep : List Char) : Nat → List Char → List (List Char)
  | _, [] => [[]]
  | 0, s => [s]
  | fuel + 1, c :: cs =>
    if sep.isPrefixOf (c :: cs) then
      [] :: splitGo sep fuel ((c :: cs).drop sep.length)
    else
      match splitGo sep fuel cs with
      | [] => [[c]]
      | p :: ps => (c :: p) :: ps

/-- JS `s.split(sep)`: empty separator splits into single characters
(`"".split("")` is `[]`); otherwise leftmost non-overlapping cuts. -/
def jsSplit (sep s : String) : List String :=
  if sep = "" then s.toList.map fun c => List.asString [c]
  else (splitGo sep.toList s.toList.length s.toList).map List.asString

/-- JS `s.split(sep).join(rep)` at character level. -/
def jsSplitJoin (sep rep s : String) : String :=
  if sep = "" then
    (List.intercalate rep.toList (s.toList.map fun c => [c])).asString
  else
    (List.intercalate rep.toList (splitGo sep.toList s.toList.length s.toList)).asString

/-- JS `s.indexOf(pat)` (as `some index`, or `none` for `-1`): position of
the first occurrence of `pat`. -/
def idxOf (pat : List Char) : List Char → Option Nat
  | [] => if pat.isEmpty then some 0 else none
  | c :: cs =>
    if pat.isPrefixOf (c :: cs) then some 0
    else (idxOf pat cs).map (· + 1)

/-- JS `s.includes(pat)`. -/
def strContains (s pat : String) : Bool :=
  (idxOf pat.toList s.toList).isSome

/-- The cursor-marker character inserted into the prompt's context window and
stripped by the find-text fallback (`│`, U+2502). -/
def cursorMarker : Char := '│'

/-- JS `findText.replace(/│/g, "")`: remove every cursor-marker character. -/
def stripCursorMarker (s : String) : String :=
  (s.toList.filter fun c => c ≠ cursorMarker).asString

/-- JS `lines.join("\n")`. -/
def joinLines : List String → String
  | [] => ""
  | [l] => l
  | l :: ls => l ++ "\n" ++ joinLines ls

/-! ## Spec-side replacement semantics

Two reference definitions written from the spec's words, to compare with the
code's `split(find).join(replace)` (claims about first-occurrence versus
every-occurrence replacement). -/

/-- Replace every leftmost non-overlapping occurrence of `find` by `rep`,
scanning left to right and continuing after each replacement.  (Reference
semantics for "replace all occurrences"; same fuel convention as `splitGo`.) -/
def replaceAllGo (find rep : List Char) : Nat → List Char → List Char
  | _, [] => []
  | 0, s => s
  | fuel + 1, c :: cs =>
    if find.isPrefixOf (c :: cs) then
      rep ++ replaceAllGo find rep fuel ((c :: cs).drop find.length)
    else
      c :: replaceAllGo find rep fuel cs

/-- Modelled from the spec: "replace the first occurrence with `replace`" —
replace only the first occurrence of `find` in `s` by `rep`, leaving any
later occurrences unchanged. -/
def replaceFirstOccurrence (find rep s : String) : String :=
  match idxOf find.toList s.toList with
  | none => s
  | some i =>
    ((s.toList.take i) ++ rep.toList ++ (s.toList.drop (i + find.length))).asString

/-! ## Edit-prediction controller (edit-prediction.ts): data model -/

/-- `PredictEditInput` from tools.ts: the structured model output — a single
find/replace substitution scoped to the context window. -/
structure PredictEditInput where
  find : String
  replace : String
deriving DecidableEq, Repr

/-- `CapturedContext` from edit-prediction.ts. -/
structure CapturedContext where
  contextLines : List String
  cursorDelta : Nat
  cursorCol : Nat
  bufferName : String
  bufferId : Nat
  startLine : Nat
  endLine : Nat
  totalLines : Nat
deriving DecidableEq, Repr

/-- `PredictionState` from edit-prediction.ts: the four-state lifecycle. -/
inductive PredictionState where
  | idle
  | awaitingAgentReply (requestId : Nat) (context : CapturedContext)
  | displayingProposedEdit (context : CapturedContext) (prediction : PredictEditInput)
  | predictionBeingApplied (context : CapturedContext) (prediction : PredictEditInput)
deriving DecidableEq, Repr

/-- The mutable fields of `EditPredictionController` that the verified
behaviour depends on: the lifecycle state, the request counter, and which
buffer currently holds rendered virtual text. -/
structure Controller where
  state : PredictionState
  requestCounter : Nat
  renderedBufferId : Option Nat
deriving DecidableEq, Repr

/-- `RecentChange` from edit-prediction.ts (the fields the prompt formats). -/
structure RecentChange where
  filePath : String
  startLine : Nat
  endLine : Nat
  oldText : String
  newText : String
deriving DecidableEq, Repr

/-- The host editor, as the controller observes it over RPC: line storage per
buffer id, the current buffer, and the cursor (1-indexed row, 0-indexed
column, as in `nvim_win_get_cursor`/`nvim_win_set_cursor`). -/
structure EditorState where
  buffers : Nat → List String
  bufferNames : Nat → String
  currentBuffer : Nat
  cursorRow1 : Nat
  cursorCol : Nat

/-- Host-visible side effects of a controller step, in emission order.  A
model request appears here exactly when `client.messages.create` is called;
a preview render exactly when `showVirtualTextPreview` places extmarks. -/
inductive Effect where
  | modelRequest (requestId : Nat) (prompt : String)
  | completingIndicator (bufferId : Nat)
  | clearNamespace (bufferId : Nat)
  | setPredictionActive (active : Bool)
  | setupListeners (bufferId : Nat)
  | cleanupListeners (bufferId : Nat)
  | renderPreview (bufferId : Nat) (ops : List DiffOperation)
  | notifyError (message : String)
deriving DecidableEq, Repr

/-- Result of one controller entry point: the controller and editor after the
step, the emitted effects, and the thrown error if any. -/
structure StepResult where
  controller : Controller
  editor : EditorState
  effects : List Effect
  error : Option String

/-- `nvim_buf_get_lines(bufferId, start, stop, false)`: the half-open line
range `[start, stop)`, clamped to the buffer. -/
def EditorState.getLines (ed : EditorState) (bufferId start stop : Nat) : List String :=
  ((ed.buffers bufferId).drop start).take (stop - start)

/-- `nvim_buf_set_lines(bufferId, start, stop, false, repl)`: replace the
half-open line range `[start, stop)` by `repl`. -/
def EditorState.setLines (ed : EditorState) (bufferId start stop : Nat)
    (repl : List String) : EditorState :=
  { ed with
    buffers := fun b =>
      if b = bufferId then
        (ed.buffers bufferId).take start ++ repl ++ (ed.buffers bufferId).drop stop
      else ed.buffers b }

/-! ## Edit-prediction controller: operations -/

/-- `clearVirtualText`: if some buffer holds rendered virtual text, clear its
namespace, forget it, and best-effort notify `set_prediction_active(false)`. -/
def clearVirtualText (c : Controller) : Controller × List Effect :=
  match c.renderedBufferId with
  | none => (c, [])
  | some b =>
    ({ c with renderedBufferId := none },
     [Effect.clearNamespace b, Effect.setPredictionActive false])

/-- The concurrency re-validation loop of `acceptPrediction` (lines 475–480):
`true` iff some index of the captured `contextLines` disagrees with the
re-fetched window (a missing line — JS `undefined` — counts as disagreement). -/
def windowChanged (contextLines currentLines : List String) : Bool :=
  (List.range contextLines.length).any fun i => currentLines[i]? ≠ contextLines[i]?

/-- `resolveFindText` (edit-prediction.ts, lines 246–262): exact occurrence
first; if the find text embeds the cursor marker, retry with the marker
stripped; otherwise throw. -/
def resolveFindText (findText contextText : String) : Except String String :=
  if strContains contextText findText then Except.ok findText
  else if strContains findText (List.asString [cursorMarker]) then
    let fallbackFind := stripCursorMarker findText
    if strContains contextText fallbackFind then Except.ok fallbackFind
    else
      Except.error
        ("Find text \"" ++ findText ++ "\" (or fallback \"" ++ fallbackFind
          ++ "\") not found in context")
  else Except.error ("Find text \"" ++ findText ++ "\" not found in context")

/-- A (row, col) cursor position, 0-indexed as in extmark coordinates. -/
structure CursorPosition where
  row : Nat
  col : Nat
deriving DecidableEq, Repr

/-- `convertCharPosToLineCol` (lines 233–244): translate a character offset
in `text` to a line/column position, lines counted from `startLine`. -/
def convertCharPosToLineCol (text : String) (charPos startLine startCol : Nat) :
    CursorPosition :=
  let ls := jsSplit "\n" ((text.toList.take charPos).asString)
  { row := startLine + ls.length - 1,
    col := if ls.length = 1 then startCol + (ls.headD "").length
           else (ls.getLastD "").length }

/-- `dismissPrediction(bufnr?)` (lines 131–143): only meaningful while
displaying a proposed edit; a truthy caller-supplied buffer id that differs
from the state's buffer is ignored; otherwise clear the preview, tear down
the listeners and return to idle. -/
def dismissPrediction (c : Controller) (bufnr : Option Nat) : Controller × List Effect :=
  match c.state with
  | PredictionState.displayingProposedEdit context _ =>
    match bufnr with
    | some b =>
      if b ≠ 0 ∧ b ≠ context.bufferId then (c, [])
      else
        let (c1, effs) := clearVirtualText c
        ({ c1 with state := PredictionState.idle },
         effs ++ [Effect.cleanupListeners context.bufferId])
    | none =>
      let (c1, effs) := clearVirtualText c
      ({ c1 with state := PredictionState.idle },
       effs ++ [Effect.cleanupListeners context.bufferId])
  | _ => (c, [])

/-- `acceptPrediction` (lines 459–510): move to `prediction-being-applied`,
clear the preview and listeners, re-fetch the captured window and abort to
idle if it changed; otherwise resolve the find text, rewrite the window's
full line range with `split(find).join(replace)` of the joined context, and
move the cursor past the end of the first inserted replacement. -/
def acceptPrediction (c : Controller) (ed : EditorState) : StepResult :=
  match c.state with
  | PredictionState.displayingProposedEdit context prediction =>
    let c1 : Controller :=
      { c with state := PredictionState.predictionBeingApplied context prediction }
    let (c2, clearEffs) := clearVirtualText c1
    let effs := clearEffs ++ [Effect.cleanupListeners context.bufferId]
    let currentLines := ed.getLines context.bufferId context.startLine (context.endLine + 1)
    if windowChanged context.contextLines currentLines then
      { controller := { c2 with state := PredictionState.idle }, editor := ed,
        effects := effs,
        error := some "Context window has changed since prediction was made" }
    else
      let contextText := joinLines context.contextLines
      match resolveFindText prediction.find contextText with
      | Except.error e =>
        { controller := c2, editor := ed, effects := effs, error := some e }
      | Except.ok findText =>
        let replacedText := jsSplitJoin findText prediction.replace contextText
        let replacedLines := if replacedText = "" then [] else jsSplit "\n" replacedText
        let ed1 := ed.setLines context.bufferId context.startLine (context.endLine + 1)
          replacedLines
        let ed2 :=
          match idxOf findText.toList contextText.toList with
          | some firstMatchPos =>
            let newPos := convertCharPosToLineCol replacedText
              (firstMatchPos + prediction.replace.length) context.startLine 0
            { ed1 with cursorRow1 := newPos.row + 1, cursorCol := newPos.col }
          | none => ed1
        { controller := { c2 with state := PredictionState.idle }, editor := ed2,
          effects := effs, error := none }
  | _ => { controller := c, editor := ed, effects := [], error := none }

/-! ## Prompt building (edit-prediction.ts, lines 39–96) -/

/-- Default token budget for the recent-change tail of the prompt. -/
def DEFAULT_RECENT_CHANGE_TOKEN_BUDGET : Nat := 1000

/-- The formatted text of one recent change as it appears in the prompt:
`filePath:startLine+1:endLine+1`, a `- old` line and a `+ new` line. -/
def formatChange (c : RecentChange) : String :=
  c.filePath ++ ":" ++ toString (c.startLine + 1) ++ ":" ++ toString (c.endLine + 1)
    ++ "\n- " ++ c.oldText ++ "\n+ " ++ c.newText

/-- `Math.ceil(formatted.length / 3)`: the estimated token cost of one
formatted change (~1 token per 3 characters). -/
def estimatedTokens (c : RecentChange) : Nat :=
  ((formatChange c).length + 2) / 3

/-- The selection loop of `buildPredictionPrompt` (lines 68–83), iterating
over the changes most-recent-first (`rev` is the reversed change list) and
prepending each selected formatted change (JS `unshift`), so the final list
is chronological.  Stops at the first change whose estimated cost would push
the running total over the budget. -/
def selectLoop (tokenBudget : Nat) :
    List RecentChange → Nat → List String → List String
  | [], _, acc => acc
  | c :: rest, tokenCount, acc =>
    if tokenBudget < tokenCount + estimatedTokens c then acc
    else selectLoop tokenBudget rest (tokenCount + estimatedTokens c)
      (formatChange c :: acc)

/-- The token-budgeted tail of the recent-change list, formatted, in
chronological order. -/
def selectRecentChanges (tokenBudget : Nat) (recentChanges : List RecentChange) :
    List String :=
  selectLoop tokenBudget recentChanges.reverse 0 []

/-- Sum of estimated token costs of a change list. -/
def sumTokens (l : List RecentChange) : Nat :=
  (l.map estimatedTokens).sum

/-- Parameters of `buildPredictionPrompt`; `tokenBudget = none` models an
omitted argument (TypeScript default parameter). -/
structure PromptParams where
  contextLines : List String
  cursorLine : Nat
  cursorCol : Nat
  bufferName : String
  startLine : Nat
  endLine : Nat
  recentChanges : List RecentChange
  tokenBudget : Option Nat
deriving Repr

/-- `buildPredictionPrompt` (lines 39–96): insert the cursor marker into the
cursor line, select the token-budgeted tail of the recent changes, and fill
the prompt template. -/
def buildPredictionPrompt (params : PromptParams) : String :=
  let tokenBudget := params.tokenBudget.getD DEFAULT_RECENT_CHANGE_TOKEN_BUDGET
  let line := (params.contextLines[params.cursorLine]?).getD ""
  let marked := ((line.toList.take params.cursorCol)
    ++ cursorMarker :: line.toList.drop params.cursorCol).asString
  let contextWithCursor := params.contextLines.set params.cursorLine marked
  let selectedChanges := selectRecentChanges tokenBudget params.recentChanges
  "Recent changes:\n" ++ joinLines selectedChanges
    ++ "\n\nCurrent context (│ marks cursor position):\n"
    ++ params.bufferName ++ ":" ++ toString (params.startLine + 1) ++ ":"
    ++ toString (params.endLine + 1) ++ "\n" ++ joinLines contextWithCursor
    ++ "\n\nPredict the most likely next edit the user will make."

/-! ## Trigger, reply handling, single-flight (edit-prediction.ts) -/

/-- `captureContextWindow` (lines 347–380): snapshot the current buffer id,
name and line count, and the window of up to 10 lines before and 20 lines
after the cursor, clipped to the buffer. -/
def captureContextWindow (ed : EditorState) : CapturedContext :=
  let bufferId := ed.currentBuffer
  let lines := ed.buffers bufferId
  let totalLines := lines.length
  let cursorRow := ed.cursorRow1 - 1
  let startLine := cursorRow - 10
  let endLine := min (totalLines - 1) (cursorRow + 20)
  { contextLines := (lines.drop startLine).take (endLine + 1 - startLine),
    cursorDelta := cursorRow - startLine,
    cursorCol := ed.cursorCol,
    bufferName := ed.bufferNames bufferId,
    bufferId := bufferId,
    startLine := startLine,
    endLine := endLine,
    totalLines := totalLines }

/-- `composeUserMessage` (lines 382–393). -/
def composeUserMessage (context : CapturedContext) (recentChanges : List RecentChange)
    (tokenBudget : Nat) : String :=
  buildPredictionPrompt
    { contextLines := context.contextLines,
      cursorLine := context.cursorDelta,
      cursorCol := context.cursorCol,
      bufferName := context.bufferName,
      startLine := context.startLine,
      endLine := context.endLine,
      recentChanges := recentChanges,
      tokenBudget := some tokenBudget }

/-- The synchronous prefix of `triggerPrediction` (lines 395–416), up to and
including the issuing of the model request: increment the request counter,
capture the context, enter `awaiting-agent-reply`, show the in-progress
indicator, and issue exactly one model request with the fresh id. -/
def triggerPredictionStart (c : Controller) (ed : EditorState)
    (recentChanges : List RecentChange) (tokenBudget : Nat) : StepResult :=
  let requestId := c.requestCounter + 1
  let context := captureContextWindow ed
  let c1 : Controller :=
    { c with requestCounter := requestId,
             state := PredictionState.awaitingAgentReply requestId context }
  let userMessage := composeUserMessage context recentChanges tokenBudget
  let (c2, clearEffs) := clearVirtualText c1
  let c3 := { c2 with renderedBufferId := some context.bufferId }
  { controller := c3, editor := ed,
    effects := clearEffs ++ [Effect.completingIndicator context.bufferId,
      Effect.modelRequest requestId userMessage],
    error := none }

/-- `triggerOrAccept` (lines 111–122): accept while displaying a proposed
edit, ignore while awaiting a reply, otherwise trigger a new prediction. -/
def triggerOrAccept (c : Controller) (ed : EditorState)
    (recentChanges : List RecentChange) (tokenBudget : Nat) : StepResult :=
  match c.state with
  | PredictionState.displayingProposedEdit _ _ => acceptPrediction c ed
  | PredictionState.awaitingAgentReply _ _ =>
    { controller := c, editor := ed, effects := [], error := none }
  | _ => triggerPredictionStart c ed recentChanges tokenBudget

/-- The staleness check of `triggerPrediction` (lines 431–436): `true` iff
the controller is still awaiting the reply of exactly this request id. -/
def isCurrentRequest (st : PredictionState) (requestId : Nat) : Bool :=
  match st with
  | PredictionState.awaitingAgentReply r _ => r = requestId
  | _ => false

/-- `showVirtualTextPreview` (lines 264–345): clear any previous preview,
remember the rendered buffer, diff the joined context against the
find→replace rewrite, and render the operations as extmarks. -/
def showVirtualTextPreview (c : Controller) (context : CapturedContext)
    (prediction : PredictEditInput) : Controller × List Effect × Option String :=
  let (c1, clearEffs) := clearVirtualText c
  let c2 := { c1 with renderedBufferId := some context.bufferId }
  let contextText := joinLines context.contextLines
  match resolveFindText prediction.find contextText with
  | Except.error e => (c2, clearEffs, some e)
  | Except.ok findText =>
    let newText := jsSplitJoin findText prediction.replace contextText
    let diffOps := calculateDiff contextText newText
    (c2, clearEffs ++ [Effect.renderPreview context.bufferId diffOps,
      Effect.setPredictionActive true], none)

/-- The continuation of `triggerPrediction` after the model reply arrives
(lines 431–457): discard silently unless still awaiting exactly `requestId`;
with no structured tool output, clear the indicator and fall back to idle
with an error; otherwise enter `displaying-proposed-edit`, install the
dismissal listeners and render the preview.  `reply` is the parsed tool-use
input, `none` when the response carried no tool use. -/
def handleModelReply (c : Controller) (requestId : Nat) (context : CapturedContext)
    (reply : Option PredictEditInput) : Controller × List Effect × Option String :=
  if isCurrentRequest c.state requestId then
    match reply with
    | none =>
      let (c1, clearEffs) := clearVirtualText c
      ({ c1 with state := PredictionState.idle },
       clearEffs ++ [Effect.cleanupListeners context.bufferId,
         Effect.notifyError "No tool use in prediction response"],
       some "No tool use in prediction response")
    | some prediction =>
      let c1 := { c with state := PredictionState.displayingProposedEdit context prediction }
      let (c2, previewEffs, err) := showVirtualTextPreview c1 context prediction
      (c2, Effect.setupListeners context.bufferId :: previewEffs, err)
  else (c, [], none)

/-! ## Concrete fixtures (used by witness and counterexample statements) -/

/-- A valid change-tracker input with file path `"f"` and line `i`. -/
def exInput (i : Nat) : ChangeInput :=
  { filePath := "f", startLine := i, endLine := i, startCol := 0, endCol := 0,
    oldText := "a", newText := "b" }

/-- Three valid tracker insertions for a capacity-2 tracker. -/
def exCalls : List (ChangeInput × Nat) :=
  [(exInput 0, 10), (exInput 1, 11), (exInput 2, 12)]

/-- The captured context of the spec's optimistic-concurrency example:
window lines `["a", "b"]` of buffer 1. -/
def exCtx : CapturedContext :=
  { contextLines := ["a", "b"], cursorDelta := 0, cursorCol := 0,
    bufferName := "buf", bufferId := 1, startLine := 0, endLine := 1, totalLines := 2 }

/-- A prediction replacing `"a"` by `"z"`. -/
def exPred : PredictEditInput := { find := "a", replace := "z" }

/-- An editor whose buffer 1 was mutated to `["a", "X"]` after capture. -/
def exEdMutated : EditorState :=
  { buffers := fun b => if b = 1 then ["a", "X"] else [],
    bufferNames := fun _ => "buf", currentBuffer := 1, cursorRow1 := 1, cursorCol := 0 }

/-- An editor whose buffer 1 still matches the captured context `["a", "b"]`. -/
def exEdMatch : EditorState :=
  { buffers := fun b => if b = 1 then ["a", "b"] else [],
    bufferNames := fun _ => "buf", currentBuffer := 1, cursorRow1 := 1, cursorCol := 0 }

/-- A captured context with the single line `"aba"` (two occurrences of `"a"`). -/
def exCtxAba : CapturedContext :=
  { contextLines := ["aba"], cursorDelta := 0, cursorCol := 0,
    bufferName := "buf", bufferId := 1, startLine := 0, endLine := 0, totalLines := 1 }

/-- A prediction replacing `"a"` by `"c"` (ambiguous in `"aba"`). -/
def exPredAba : PredictEditInput := { find := "a", replace := "c" }

/-- An editor whose buffer 1 holds exactly the line `"aba"`. -/
def exEdAba : EditorState :=
  { buffers := fun b => if b = 1 then ["aba"] else [],
    bufferNames := fun _ => "buf", currentBuffer := 1, cursorRow1 := 1, cursorCol := 0 }

/-- A prediction whose find text occurs nowhere in `exCtx`'s window. -/
def exPredMissing : PredictEditInput := { find := "zzz", replace := "w" }

/-! ## Lemmas: diff engine -/

theorem tokenize_join (s : List Char) : (tokenize s).flatten = s := by
  induction s with
  | nil => rfl
  | cons c cs ih =>
    rw [tokenize]
    cases h : tokenize cs with
    | nil =>
      rw [h] at ih
      simp only [List.flatten_nil] at ih
      simp [← ih]
    | cons t ts =>
      rw [h] at ih
      simp only [List.flatten_cons] at ih
      show (if (tokenHead t c).isWhitespace = c.isWhitespace
        then (c :: t) :: ts else [c] :: t :: ts).flatten = c :: cs
      by_cases hw : (tokenHead t c).isWhitespace = c.isWhitespace
      · rw [if_pos hw]
        simp [List.flatten_cons, ih]
      · rw [if_neg hw]
        simp [List.flatten_cons, ih]

theorem concatKept_append (l m : List Change) :
    concatKept (l ++ m) = concatKept l ++ concatKept m := by
  induction l with
  | nil => rfl
  | cons c cs ih => cases c <;> simp [concatKept, ih]

theorem concatNew_append (l m : List Change) :
    concatNew (l ++ m) = concatNew l ++ concatNew m := by
  induction l with
  | nil => rfl
  | cons c cs ih => cases c <;> simp [concatNew, ih]

theorem concatKept_map_removed (l : List (List Char)) :
    concatKept (l.map Change.removed) = l.flatten := by
  induction l with
  | nil => rfl
  | cons v vs ih => simp [concatKept, ih]

theorem concatKept_map_added (l : List (List Char)) :
    concatKept (l.map Change.added) = [] := by
  induction l with
  | nil => rfl
  | cons v vs ih => simp [concatKept, ih]

theorem concatNew_map_removed (l : List (List Char)) :
    concatNew (l.map Change.removed) = [] := by
  induction l with
  | nil => rfl
  | cons v vs ih => simp [concatNew, ih]

theorem concatNew_map_added (l : List (List Char)) :
    concatNew (l.map Change.added) = l.flatten := by
  induction l with
  | nil => rfl
  | cons v vs ih => simp [concatNew, ih]

theorem diffTokens_kept (f : Nat) :
    ∀ as bs : List (List Char), concatKept (diffTokens f as bs) = as.flatten := by
  induction f with
  | zero =>
    intro as bs
    simp [diffTokens, concatKept_append, concatKept_map_removed, concatKept_map_added]
  | succ f ih =>
    intro as bs
    cases as with
    | nil => simp [diffTokens, concatKept_map_added]
    | cons a as =>
      cases bs with
      | nil => simp [diffTokens, concatKept, concatKept_map_removed]
      | cons b bs =>
        rw [diffTokens]
        by_cases hab : a = b
        · simp [hab, concatKept, ih]
        · simp only [if_neg hab]
          by_cases hc :
              scriptCost (Change.removed a :: diffTokens f as (b :: bs)) ≤
                scriptCost (Change.added b :: diffTokens f (a :: as) bs) <;>
            simp [hc, concatKept, ih]

theorem diffTokens_new (f : Nat) :
    ∀ as bs : List (List Char), concatNew (diffTokens f as bs) = bs.flatten := by
  induction f with
  | zero =>
    intro as bs
    simp [diffTokens, concatNew_append, concatNew_map_removed, concatNew_map_added]
  | succ f ih =>
    intro as bs
    cases as with
    | nil => simp [diffTokens, concatNew_map_added]
    | cons a as =>
      cases bs with
      | nil => simp [diffTokens, concatNew, concatNew_map_removed]
      | cons b bs =>
        rw [diffTokens]
        by_cases hab : a = b
        · simp [hab, concatNew, ih]
        · simp only [if_neg hab]
          by_cases hc :
              scriptCost (Change.removed a :: diffTokens f as (b :: bs)) ≤
                scriptCost (Change.added b :: diffTokens f (a :: as) bs) <;>
            simp [hc, concatNew, ih]

theorem mergePush_kept (c : Change) (l : List Change) :
    concatKept (mergePush c l) = concatKept (c :: l) := by
  cases l with
  | nil => rfl
  | cons d ds => cases c <;> cases d <;> simp [mergePush, concatKept, List.append_assoc]

theorem mergePush_new (c : Change) (l : List Change) :
    concatNew (mergePush c l) = concatNew (c :: l) := by
  cases l with
  | nil => rfl
  | cons d ds => cases c <;> cases d <;> simp [mergePush, concatNew, List.append_assoc]

theorem mergeChanges_kept (l : List Change) :
    concatKept (mergeChanges l) = concatKept l := by
  induction l with
  | nil => rfl
  | cons c cs ih =>
    rw [mergeChanges, mergePush_kept]
    cases c <;> simp [concatKept, ih]

theorem mergeChanges_new (l : List Change) :
    concatNew (mergeChanges l) = concatNew l := by
  induction l with
  | nil => rfl
  | cons c cs ih =>
    rw [mergeChanges, mergePush_new]
    cases c <;> simp [concatNew, ih]

theorem diffWordsWithSpace_kept (a b : List Char) :
    concatKept (diffWordsWithSpace a b) = a := by
  rw [diffWordsWithSpace]
  rw [mergeChanges_kept, diffTokens_kept, tokenize_join]

theorem diffWordsWithSpace_new (a b : List Char) :
    concatNew (diffWordsWithSpace a b) = b := by
  rw [diffWordsWithSpace]
  rw [mergeChanges_new, diffTokens_new, tokenize_join]

/-- Invariant of the left-to-right application: starting from a copy whose
prefix `pre` is already fully edited and whose suffix is the unconsumed
original text, with the running offset relating copy coordinates to
original-text coordinates, the remaining operations turn the suffix into the
remaining new-side text. -/
theorem applyOps_reassemble :
    ∀ (changes : List Change) (pre rest : List Char) (pos : Nat),
      concatKept changes = rest →
      ((calculateDiffAux pos changes).foldl applyOp
        (pre ++ rest, (pre.length : Int) - (pos : Int))).1 = pre ++ concatNew changes := by
  intro changes
  induction changes with
  | nil =>
    intro pre rest pos h
    rw [concatKept] at h
    subst h
    simp [calculateDiffAux, concatNew]
  | cons c cs ih =>
    intro pre rest pos h
    cases c with
    | common v =>
      rw [concatKept] at h
      rw [calculateDiffAux]
      have h1 : pre ++ rest = (pre ++ v) ++ concatKept cs := by
        rw [← h, List.append_assoc]
      have h2 : (pre.length : Int) - (pos : Int) =
          ((pre ++ v).length : Int) - ((pos + v.length : Nat) : Int) := by
        simp only [List.length_append]
        push_cast
        ring
      rw [h1, h2, ih (pre ++ v) (concatKept cs) (pos + v.length) rfl]
      simp [concatNew, List.append_assoc]
    | removed v =>
      rw [concatKept] at h
      rw [calculateDiffAux, List.foldl_cons]
      have happ :
          applyOp (pre ++ rest, (pre.length : Int) - (pos : Int))
            (DiffOperation.delete pos (pos + v.length)) =
          (pre ++ concatKept cs,
           (pre.length : Int) - ((pos + v.length : Nat) : Int)) := by
        simp only [applyOp]
        have hs : (((pos : Nat) : Int) + ((pre.length : Int) - (pos : Int))).toNat
            = pre.length := by omega
        have he : (((pos + v.length : Nat) : Int) + ((pre.length : Int) - (pos : Int))).toNat
            = pre.length + v.length := by
          push_cast
          omega
        rw [hs, he, ← h]
        simp only [Prod.mk.injEq]
        constructor
        · have htake : (pre ++ (v ++ concatKept cs)).take pre.length = pre :=
            List.take_left' rfl
          have hdrop :
              (pre ++ (v ++ concatKept cs)).drop (pre.length + v.length) = concatKept cs := by
            rw [← List.append_assoc]
            exact List.drop_left' (by simp)
          rw [htake, hdrop]
        · push_cast
          ring
      rw [happ, ih pre (concatKept cs) (pos + v.length) rfl]
      rw [concatNew]
    | added v =>
      rw [concatKept] at h
      rw [calculateDiffAux, List.foldl_cons]
      have happ :
          applyOp (pre ++ rest, (pre.length : Int) - (pos : Int))
            (DiffOperation.insert v pos) =
          ((pre ++ v) ++ rest, ((pre ++ v).length : Int) - (pos : Int)) := by
        simp only [applyOp]
        have hp : (((pos : Nat) : Int) + ((pre.length : Int) - (pos : Int))).toNat
            = pre.length := by omega
        rw [hp]
        simp only [Prod.mk.injEq]
        constructor
        · rw [List.take_left' rfl, List.drop_left' rfl, List.append_assoc]
        · simp only [List.length_append]
          push_cast
          ring
      rw [happ, ih (pre ++ v) rest pos h]
      rw [concatNew, List.append_assoc]

/-- **C1.** For every pair of strings (original, modified), applying the
operation sequence returned by `calculateDiff original modified` to the
original text in emission order, left-to-right — deletes removing their
half-open span, inserts adding their text at their anchor, with the positions
interpreted in original-text coordinates (mapped into the evolving copy by
the running insert/delete offset) — reproduces the modified text exactly. -/
theorem diff_round_trip (original modified : String) :
    applyOperations original.toList (calculateDiff original modified) = modified.toList := by
  rw [applyOperations, calculateDiff]
  have h := applyOps_reassemble (diffWordsWithSpace original.toList modified.toList)
    [] original.toList 0 (diffWordsWithSpace_kept original.toList modified.toList)
  simpa [diffWordsWithSpace_new] using h

theorem diffTokens_self (f : Nat) :
    ∀ as : List (List Char), as.length ≤ f → diffTokens f as as = as.map Change.common := by
  induction f with
  | zero =>
    intro as h
    rw [Nat.le_zero, List.length_eq_zero] at h
    subst h
    rfl
  | succ f ih =>
    intro as h
    cases as with
    | nil => rfl
    | cons a as =>
      rw [diffTokens, if_pos rfl, ih as (by simpa using Nat.le_of_succ_le_succ h)]
      rfl

theorem allCommon_mergePush (c : Change) (l : List Change)
    (hc : allCommon [c] = true) (hl : allCommon l = true) :
    allCommon (mergePush c l) = true := by
  cases l with
  | nil => simpa [mergePush] using hc
  | cons d ds =>
    rw [allCommon, List.all_cons, Bool.and_eq_true] at hl
    cases c with
    | common v =>
      cases d with
      | common w =>
        rw [mergePush]
        simpa [allCommon] using hl.2
      | removed w => simp at hl
      | added w => simp at hl
    | removed v => simp [allCommon] at hc
    | added v => simp [allCommon] at hc

theorem allCommon_mergeChanges (l : List Change) (h : allCommon l = true) :
    allCommon (mergeChanges l) = true := by
  induction l with
  | nil => rfl
  | cons c cs ih =>
    rw [allCommon, List.all_cons, Bool.and_eq_true] at h
    rw [mergeChanges]
    exact allCommon_mergePush c _ (by simpa [allCommon] using h.1) (ih h.2)

theorem calculateDiffAux_allCommon (l : List Change) (h : allCommon l = true) :
    ∀ pos : Nat, calculateDiffAux pos l = [] := by
  induction l with
  | nil => intro pos; rfl
  | cons c cs ih =>
    intro pos
    rw [allCommon, List.all_cons, Bool.and_eq_true] at h
    cases c with
    | common v => rw [calculateDiffAux]; exact ih h.2 _
    | removed v => simp at h
    | added v => simp at h

/-- **C10.** For every string `s`, `calculateDiff s s` returns the empty
operation sequence: diffing a text against itself produces no delete and no
insert operations. -/
theorem diff_self_empty (s : String) : calculateDiff s s = [] := by
  rw [calculateDiff, diffWordsWithSpace]
  apply calculateDiffAux_allCommon
  apply allCommon_mergeChanges
  rw [diffTokens_self _ _ (by omega)]
  induction tokenize s.toList with
  | nil => rfl
  | cons t ts ih => simp [allCommon] at ih ⊢

/-! ## Lemmas: Change History (change-tracker.ts) -/

theorem addChange_maxChanges (t : ChangeTracker) (c : ChangeInput) (now : Nat) :
    (t.addChange c now).maxChanges = t.maxChanges := by
  rw [ChangeTracker.addChange]
  by_cases h : c.filePath = ""
  · rw [if_pos h]
  · rw [if_neg h]
    by_cases h2 : t.maxChanges < (t.changes ++ [stamp c now]).length
    · simp only [if_pos h2]
    · simp only [if_neg h2]

theorem addChange_length (t : ChangeTracker) (c : ChangeInput) (now : Nat)
    (h : t.changes.length ≤ t.maxChanges) :
    (t.addChange c now).changes.length ≤ t.maxChanges := by
  rw [ChangeTracker.addChange]
  by_cases hv : c.filePath = ""
  · rw [if_pos hv]; exact h
  · rw [if_neg hv]
    by_cases h2 : t.maxChanges < (t.changes ++ [stamp c now]).length
    · simp only [if_pos h2, List.length_drop]
      omega
    · simp only [if_neg h2]
      simp only [List.length_append, List.length_singleton] at h2 ⊢
      omega

theorem addChange_suffix (t : ChangeTracker) (c : ChangeInput) (now : Nat) :
    (t.addChange c now).changes <:+
      t.changes ++ (if c.filePath = "" then [] else [stamp c now]) := by
  rw [ChangeTracker.addChange]
  by_cases hv : c.filePath = ""
  · rw [if_pos hv, if_pos hv, List.append_nil]
  · rw [if_neg hv, if_neg hv]
    by_cases h2 : t.maxChanges < (t.changes ++ [stamp c now]).length
    · simp only [if_pos h2]
      exact List.drop_suffix _ _
    · simp only [if_neg h2]
      exact List.suffix_refl _

theorem addChanges_maxChanges (cs : List (ChangeInput × Nat)) :
    ∀ t : ChangeTracker, (t.addChanges cs).maxChanges = t.maxChanges := by
  induction cs with
  | nil => intro t; rfl
  | cons p ps ih =>
    intro t
    rw [ChangeTracker.addChanges, List.foldl_cons]
    have := ih (t.addChange p.1 p.2)
    rw [ChangeTracker.addChanges] at this
    rw [this, addChange_maxChanges]

theorem addChanges_length (cs : List (ChangeInput × Nat)) :
    ∀ t : ChangeTracker, t.changes.length ≤ t.maxChanges →
      (t.addChanges cs).changes.length ≤ t.maxChanges := by
  induction cs with
  | nil => intro t h; exact h
  | cons p ps ih =>
    intro t h
    rw [ChangeTracker.addChanges, List.foldl_cons]
    have h1 := addChange_length t p.1 p.2 h
    have h2 := ih (t.addChange p.1 p.2)
    rw [ChangeTracker.addChanges] at h2
    rw [← addChange_maxChanges t p.1 p.2]
    exact h2 (by rw [addChange_maxChanges]; exact h1)

theorem addChanges_suffix (cs : List (ChangeInput × Nat)) :
    ∀ t : ChangeTracker, (t.addChanges cs).changes <:+ t.changes ++ stampedValid cs := by
  induction cs with
  | nil =>
    intro t
    rw [stampedValid, List.append_nil]
    exact List.suffix_refl _
  | cons p ps ih =>
    intro t
    rw [ChangeTracker.addChanges, List.foldl_cons]
    have h1 := ih (t.addChange p.1 p.2)
    rw [ChangeTracker.addChanges] at h1
    have h2 := addChange_suffix t p.1 p.2
    obtain ⟨u, hu⟩ := h2
    have h3 : (t.addChange p.1 p.2).changes ++ stampedValid ps <:+
        t.changes ++ stampedValid (p :: ps) := by
      refine ⟨u, ?_⟩
      rw [← List.append_assoc, hu, stampedValid, List.append_assoc]
      by_cases hv : p.1.filePath = ""
      · rw [if_pos hv, if_pos hv]
        rfl
      · rw [if_neg hv, if_neg hv]
        rfl
    exact h1.trans h3

theorem addChanges_allValid (cs : List (ChangeInput × Nat)) :
    ∀ t : ChangeTracker, t.changes.length ≤ t.maxChanges →
      (∀ p ∈ cs, p.1.filePath ≠ "") →
      (t.addChanges cs).changes =
        (t.changes ++ cs.map fun p => stamp p.1 p.2).drop
          ((t.changes.length + cs.length) - t.maxChanges) := by
  induction cs with
  | nil =>
    intro t h _
    rw [List.map_nil, List.append_nil, List.length_nil, Nat.add_zero,
      Nat.sub_eq_zero_of_le h, List.drop_zero]
    rfl
  | cons p ps ih =>
    intro t h hv
    have hvp : p.1.filePath ≠ "" := hv p (List.mem_cons_self p ps)
    have hvps : ∀ q ∈ ps, q.1.filePath ≠ "" := fun q hq => hv q (List.mem_cons_of_mem p hq)
    rw [ChangeTracker.addChanges, List.foldl_cons]
    have hstep := ih (t.addChange p.1 p.2)
      (by rw [addChange_maxChanges]; exact addChange_length t p.1 p.2 h)
    rw [ChangeTracker.addChanges, addChange_maxChanges] at hstep
    rw [hstep hvps]
    rw [ChangeTracker.addChange, if_neg hvp]
    simp only [List.map_cons, List.length_cons]
    by_cases h2 : t.maxChanges < (t.changes ++ [stamp p.1 p.2]).length
    · simp only [if_pos h2]
      simp only [List.length_append, List.length_singleton] at h2
      have e1 : (t.changes ++ [stamp p.1 p.2]).drop (t.changes.length + 1 - t.maxChanges)
          ++ (ps.map fun q => stamp q.1 q.2) =
          ((t.changes ++ [stamp p.1 p.2]) ++ ps.map fun q => stamp q.1 q.2).drop
            (t.changes.length + 1 - t.maxChanges) :=
        (List.drop_append_of_le_length (by simp)).symm
      have e2 : ((t.changes ++ [stamp p.1 p.2]).drop
          (t.changes.length + 1 - t.maxChanges)).length = t.maxChanges := by
        simp
        omega
      rw [show (t.changes ++ [stamp p.1 p.2]).length - t.maxChanges
          = t.changes.length + 1 - t.maxChanges from by simp, e2, e1, List.drop_drop]
      have e3 : (t.changes ++ [stamp p.1 p.2]) ++ (ps.map fun q => stamp q.1 q.2)
          = t.changes ++ (stamp p.1 p.2 :: ps.map fun q => stamp q.1 q.2) := by
        simp
      rw [e3]
      congr 1
      omega
    · simp only [if_neg h2]
      simp only [List.length_append, List.length_singleton] at h2
      have e3 : (t.changes ++ [stamp p.1 p.2]) ++ (ps.map fun q => stamp q.1 q.2)
          = t.changes ++ (stamp p.1 p.2 :: ps.map fun q => stamp q.1 q.2) := by
        simp
      rw [e3]
      congr 1
      simp only [List.length_append, List.length_singleton]
      omega

/-- **C4.** For every call sequence on a `ChangeTracker` whose stored list is
within capacity, the stored list stays within capacity (`length ≤ maxChanges`
at all times, since every intermediate tracker is itself `addChanges` of a
prefix); the stored list is always a suffix of the admitted insertions in
call order (so on overflow exactly the oldest entries have been evicted and
the survivors keep their relative order); and starting from an empty tracker
with only valid insertions, exactly the `length − capacity` oldest entries
are dropped. -/
theorem changeTracker_bounded_fifo (t : ChangeTracker) (cs : List (ChangeInput × Nat))
    (hinv : t.changes.length ≤ t.maxChanges) :
    (t.addChanges cs).changes.length ≤ t.maxChanges
    ∧ (t.addChanges cs).changes <:+ t.changes ++ stampedValid cs
    ∧ (t.changes = [] → (∀ p ∈ cs, p.1.filePath ≠ "") →
        (t.addChanges cs).changes =
          (cs.map fun p => stamp p.1 p.2).drop (cs.length - t.maxChanges)) := by
  refine ⟨addChanges_length cs t hinv, addChanges_suffix cs t, fun hnil hv => ?_⟩
  have h := addChanges_allValid cs t hinv hv
  rw [hnil] at h
  simpa using h

/-- Witness for C4: three valid insertions into an empty capacity-2 tracker
leave exactly the last two stamped entries, the oldest evicted. -/
theorem changeTracker_bounded_fifo_witness :
    (ChangeTracker.addChanges ⟨[], 2⟩ exCalls).changes.length ≤ 2
    ∧ (ChangeTracker.addChanges ⟨[], 2⟩ exCalls).changes =
        (exCalls.map fun p => stamp p.1 p.2).drop 1 := by
  have h := changeTracker_bounded_fifo ⟨[], 2⟩ exCalls (by decide)
  exact ⟨h.1, h.2.2 rfl (by decide)⟩

/-! ## Lemmas: JS split/join as replace-all -/

theorem splitGo_ne_nil (sep : List Char) :
    ∀ (fuel : Nat) (s : List Char), splitGo sep fuel s ≠ [] := by
  intro fuel
  induction fuel with
  | zero => intro s; cases s <;> simp [splitGo]
  | succ fuel ih =>
    intro s
    cases s with
    | nil => simp [splitGo]
    | cons c cs =>
      rw [splitGo]
      by_cases hp : sep.isPrefixOf (c :: cs) = true
      · simp [hp]
      · rw [if_neg (by simp [hp])]
        cases h : splitGo sep fuel cs <;> simp

theorem intercalate_singleton (rep s : List Char) : List.intercalate rep [s] = s := by
  simp [List.intercalate]

theorem intercalate_nil_cons (rep : List Char) (l : List (List Char)) (h : l ≠ []) :
    List.intercalate rep ([] :: l) = rep ++ List.intercalate rep l := by
  cases l with
  | nil => exact absurd rfl h
  | cons p ps => simp [List.intercalate, List.intersperse_cons_cons]

theorem intercalate_cons_head (rep : List Char) (c : Char) (p : List Char)
    (ps : List (List Char)) :
    List.intercalate rep ((c :: p) :: ps) = c :: List.intercalate rep (p :: ps) := by
  cases ps with
  | nil => simp [List.intercalate]
  | cons q qs => simp [List.intercalate, List.intersperse_cons_cons]

/-- The code's `split(find).join(replace)` equals the reference
replace-every-occurrence scan, at every fuel value. -/
theorem intercalate_splitGo_eq_replaceAll (sep rep : List Char) :
    ∀ (fuel : Nat) (s : List Char),
      List.intercalate rep (splitGo sep fuel s) = replaceAllGo sep rep fuel s := by
  intro fuel
  induction fuel with
  | zero =>
    intro s
    cases s with
    | nil => simp [splitGo, replaceAllGo, intercalate_singleton]
    | cons c cs => simp [splitGo, replaceAllGo, intercalate_singleton]
  | succ fuel ih =>
    intro s
    cases s with
    | nil => simp [splitGo, replaceAllGo, intercalate_singleton]
    | cons c cs =>
      rw [splitGo, replaceAllGo]
      by_cases hp : sep.isPrefixOf (c :: cs) = true
      · rw [if_pos hp, if_pos hp]
        rw [intercalate_nil_cons _ _ (splitGo_ne_nil sep fuel _), ih]
      · rw [if_neg (by simp [hp]), if_neg (by simp [hp])]
        cases h : splitGo sep fuel cs with
        | nil => exact absurd h (splitGo_ne_nil sep fuel cs)
        | cons p ps =>
          have hcs := ih cs
          rw [h] at hcs
          simp only [h]
          rw [intercalate_cons_head, hcs]

/-! ## Lemmas: controller state machine -/

/-- **C5.** Whenever the controller is awaiting a model reply, a further
prediction trigger is a no-op: the controller (hence the stored `requestId`
and the request counter) is unchanged, the editor is untouched, and no effect
— in particular no second model request — is emitted. -/
theorem single_flight (c : Controller) (ed : EditorState)
    (recentChanges : List RecentChange) (tokenBudget : Nat)
    (requestId : Nat) (context : CapturedContext)
    (h : c.state = PredictionState.awaitingAgentReply requestId context) :
    triggerOrAccept c ed recentChanges tokenBudget =
      { controller := c, editor := ed, effects := [], error := none } := by
  rw [triggerOrAccept, h]

/-- Witness for C5: a concrete awaiting controller is left untouched. -/
theorem single_flight_witness :
    triggerOrAccept ⟨PredictionState.awaitingAgentReply 1 exCtx, 1, none⟩ exEdMatch [] 1000
      = { controller := ⟨PredictionState.awaitingAgentReply 1 exCtx, 1, none⟩,
          editor := exEdMatch, effects := [], error := none } :=
  single_flight _ exEdMatch [] 1000 1 exCtx rfl

/-- **C6.** A model reply whose request id is no longer the one the
controller is awaiting (the state moved on, or a newer request superseded it)
is discarded silently: the controller is unchanged and no effect — in
particular no preview render — is emitted. -/
theorem stale_reply_discarded (c : Controller) (requestId : Nat)
    (context : CapturedContext) (reply : Option PredictEditInput)
    (h : isCurrentRequest c.state requestId = false) :
    handleModelReply c requestId context reply = (c, [], none) := by
  rw [handleModelReply.eq_def, h]
  simp

/-- Witness for C6: a reply for superseded request 1 arriving while request 2
is awaited is discarded. -/
theorem stale_reply_discarded_witness :
    handleModelReply ⟨PredictionState.awaitingAgentReply 2 exCtx, 2, none⟩ 1 exCtx
        (some exPred)
      = (⟨PredictionState.awaitingAgentReply 2 exCtx, 2, none⟩, [], none) :=
  stale_reply_discarded _ 1 exCtx (some exPred) (by decide)

/-- Counterexample for C9 as stated: the caller-supplied buffer id `0`
differs from the state's buffer id `1`, yet the dismissal is not ignored —
the state is reset to idle (the code's truthiness guard `bufnr &&
bufnr !== bufferId` lets `0` through). -/
theorem dismiss_mismatch_counterexample :
    (0 : Nat) ≠ exCtx.bufferId
    ∧ (dismissPrediction ⟨PredictionState.displayingProposedEdit exCtx exPred, 1, some 1⟩
        (some 0)).1.state = PredictionState.idle := by
  constructor
  · decide
  · decide

/-- **C9 (amended).** For every dismissal carrying a nonzero caller-supplied
buffer id, if the controller is displaying a proposed edit and the supplied
id differs from the state's buffer id, the dismissal is ignored: the
controller (state and rendered preview) is unchanged and no effect is
emitted.  (As written the claim fails for the supplied id `0`, which the
code's truthiness test treats as absent.) -/
theorem dismiss_mismatch_ignored (c : Controller) (b : Nat)
    (context : CapturedContext) (prediction : PredictEditInput)
    (hstate : c.state = PredictionState.displayingProposedEdit context prediction)
    (hb0 : b ≠ 0) (hb : b ≠ context.bufferId) :
    dismissPrediction c (some b) = (c, []) := by
  rw [dismissPrediction, hstate]
  simp [hb0, hb]

/-- Witness for C9: dismissal scoped to buffer 2 while buffer 1 is displayed
is ignored. -/
theorem dismiss_mismatch_ignored_witness :
    dismissPrediction ⟨PredictionState.displayingProposedEdit exCtx exPred, 1, some 1⟩
        (some 2)
      = (⟨PredictionState.displayingProposedEdit exCtx exPred, 1, some 1⟩, []) :=
  dismiss_mismatch_ignored _ 2 exCtx exPred rfl (by decide) (by decide)

/-- **C2.** If the controller is displaying a proposed edit and accept is
invoked while the re-fetched content of the captured line window differs from
the captured `contextLines` at some index, the apply aborts: the editor is
completely unchanged (no line range is rewritten) and the controller state
becomes idle, surfacing the concurrency error. -/
theorem accept_aborts_on_concurrent_change (c : Controller) (ed : EditorState)
    (context : CapturedContext) (prediction : PredictEditInput)
    (hstate : c.state = PredictionState.displayingProposedEdit context prediction)
    (hchanged : windowChanged context.contextLines
      (ed.getLines context.bufferId context.startLine (context.endLine + 1)) = true) :
    (acceptPrediction c ed).controller.state = PredictionState.idle
    ∧ (acceptPrediction c ed).editor = ed
    ∧ (acceptPrediction c ed).error =
        some "Context window has changed since prediction was made" := by
  rw [acceptPrediction, hstate]
  simp [hchanged]

/-- Witness for C2: the spec's optimistic-concurrency example — captured
`["a", "b"]`, live buffer `["a", "X"]` — aborts with the buffer unchanged. -/
theorem accept_aborts_witness :
    (acceptPrediction ⟨PredictionState.displayingProposedEdit exCtx exPred, 1, some 1⟩
        exEdMutated).controller.state = PredictionState.idle
    ∧ (acceptPrediction ⟨PredictionState.displayingProposedEdit exCtx exPred, 1, some 1⟩
        exEdMutated).editor = exEdMutated := by
  have h := accept_aborts_on_concurrent_change
    ⟨PredictionState.displayingProposedEdit exCtx exPred, 1, some 1⟩
    exEdMutated exCtx exPred rfl (by decide)
  exact ⟨h.1, h.2.1⟩

/-- **C8.** Find-text resolution returns the find text itself when it occurs
verbatim in the context; otherwise, when it contains the cursor marker and
the marker-stripped version occurs, it returns the stripped version; in all
other cases it fails with an error — and in the accept path a resolution
failure performs no buffer mutation. -/
theorem resolve_find_text_spec :
    (∀ findText contextText : String,
      (strContains contextText findText = true →
        resolveFindText findText contextText = Except.ok findText)
      ∧ (strContains contextText findText = false →
          strContains findText (List.asString [cursorMarker]) = true →
          strContains contextText (stripCursorMarker findText) = true →
          resolveFindText findText contextText =
            Except.ok (stripCursorMarker findText))
      ∧ (strContains contextText findText = false →
          (strContains findText (List.asString [cursorMarker]) = false
            ∨ strContains contextText (stripCursorMarker findText) = false) →
          ∃ e, resolveFindText findText contextText = Except.error e))
    ∧ ∀ (c : Controller) (ed : EditorState) (context : CapturedContext)
        (prediction : PredictEditInput),
        c.state = PredictionState.displayingProposedEdit context prediction →
        (∃ e, resolveFindText prediction.find (joinLines context.contextLines)
          = Except.error e) →
        (acceptPrediction c ed).editor = ed := by
  constructor
  · intro findText contextText
    refine ⟨fun h1 => ?_, fun h1 h2 h3 => ?_, fun h1 h2 => ?_⟩
    · rw [resolveFindText, if_pos h1]
    · rw [resolveFindText, if_neg (by simp [h1]), if_pos h2, if_pos h3]
    · rcases h2 with h2 | h2
      · exact ⟨_, by rw [resolveFindText, if_neg (by simp [h1]), if_neg (by simp [h2])]⟩
      · rw [resolveFindText, if_neg (by simp [h1])]
        by_cases hm : strContains findText (List.asString [cursorMarker]) = true
        · exact ⟨_, by rw [if_pos hm, if_neg (by simp [h2])]⟩
        · exact ⟨_, by rw [if_neg hm]⟩
  · intro c ed context prediction hstate ⟨e, herr⟩
    rw [acceptPrediction, hstate]
    by_cases hwin : windowChanged context.contextLines
        (ed.getLines context.bufferId context.startLine (context.endLine + 1)) = true
    · simp [hwin]
    · simp only [Bool.not_eq_true] at hwin
      simp [hwin, herr]

/-- Witness for C8: an exact match resolves to itself; a marker-embedding
find text resolves to its stripped form; a missing find text leaves the
buffer untouched on accept. -/
theorem resolve_find_text_spec_witness :
    resolveFindText "a" "bab" = Except.ok "a"
    ∧ resolveFindText "a│b" "ab" = Except.ok "ab"
    ∧ (acceptPrediction
        ⟨PredictionState.displayingProposedEdit exCtx exPredMissing, 1, none⟩
        exEdMatch).editor = exEdMatch := by
  refine ⟨(resolve_find_text_spec.1 "a" "bab").1 (by decide),
    ((resolve_find_text_spec.1 "a│b" "ab").2.1 (by decide) (by decide) ?_),
    resolve_find_text_spec.2 _ exEdMatch exCtx exPredMissing rfl ⟨_, rfl⟩⟩
  · decide

/-- Counterexample for C3 as stated: with context window `["aba"]` and
prediction `find = "a"`, `replace = "c"`, the code rewrites the window to
`["cbc"]` — the second occurrence is replaced too — whereas replacing exactly
the first occurrence would give `["cba"]`.  (`split(find).join(replace)`
replaces every occurrence, not only the first.) -/
theorem accept_first_occurrence_counterexample :
    (acceptPrediction ⟨PredictionState.displayingProposedEdit exCtxAba exPredAba, 1, none⟩
        exEdAba).editor.buffers 1 = ["cbc"]
    ∧ replaceFirstOccurrence exPredAba.find exPredAba.replace
        (joinLines exCtxAba.contextLines) = "cba"
    ∧ (["cbc"] : List String) ≠ ["cba"] := by
  refine ⟨by decide, by decide, by decide⟩

/-- **C3 (amended).** On accept with a matching context window and a
nonempty resolved find text, the window's full line range is rewritten with
the joined context text in which *every* leftmost non-overlapping occurrence
of the resolved find text is replaced by the prediction's replace text (the
code's `split(find).join(replace)`), the state returns to idle, and no other
buffer is touched.  (As stated — replace exactly the first occurrence,
leaving later occurrences unchanged — the claim fails; see the
counterexample.) -/
theorem accept_replaces_every_occurrence (c : Controller) (ed : EditorState)
    (context : CapturedContext) (prediction : PredictEditInput) (findText : String)
    (hstate : c.state = PredictionState.displayingProposedEdit context prediction)
    (hwin : windowChanged context.contextLines
      (ed.getLines context.bufferId context.startLine (context.endLine + 1)) = false)
    (hres : resolveFindText prediction.find (joinLines context.contextLines)
      = Except.ok findText)
    (hne : findText ≠ "") :
    (acceptPrediction c ed).controller.state = PredictionState.idle
    ∧ (acceptPrediction c ed).editor.buffers context.bufferId
        = (ed.buffers context.bufferId).take context.startLine
          ++ (if (replaceAllGo findText.toList prediction.replace.toList
                  (joinLines context.contextLines).toList.length
                  (joinLines context.contextLines).toList).asString = "" then []
              else jsSplit "\n" (replaceAllGo findText.toList prediction.replace.toList
                  (joinLines context.contextLines).toList.length
                  (joinLines context.contextLines).toList).asString)
          ++ (ed.buffers context.bufferId).drop (context.endLine + 1)
    ∧ ∀ b, b ≠ context.bufferId →
        (acceptPrediction c ed).editor.buffers b = ed.buffers b := by
  have hjs : jsSplitJoin findText prediction.replace (joinLines context.contextLines)
      = (replaceAllGo findText.toList prediction.replace.toList
          (joinLines context.contextLines).toList.length
          (joinLines context.contextLines).toList).asString := by
    rw [jsSplitJoin, if_neg hne, intercalate_splitGo_eq_replaceAll]
  rw [← hjs]
  rw [acceptPrediction, hstate]
  simp only [hwin, Bool.false_eq_true, if_false]
  rw [hres]
  refine ⟨rfl, ?_, ?_⟩
  · cases hidx : idxOf findText.data (joinLines context.contextLines).data with
    | none => simp [hidx, EditorState.setLines]
    | some p => simp [hidx, EditorState.setLines]
  · intro b hb
    cases hidx : idxOf findText.data (joinLines context.contextLines).data with
    | none => simp [hidx, EditorState.setLines, hb]
    | some p => simp [hidx, EditorState.setLines, hb]

/-- Witness for the amended C3: accepting `find = "a"`, `replace = "c"` on
the matching window `["aba"]` rewrites buffer 1 to `["cbc"]`. -/
theorem accept_replaces_every_occurrence_witness :
    (acceptPrediction ⟨PredictionState.displayingProposedEdit exCtxAba exPredAba, 1, none⟩
        exEdAba).controller.state = PredictionState.idle
    ∧ (acceptPrediction ⟨PredictionState.displayingProposedEdit exCtxAba exPredAba, 1, none⟩
        exEdAba).editor.buffers exCtxAba.bufferId
        = (exEdAba.buffers exCtxAba.bufferId).take exCtxAba.startLine
          ++ (if (replaceAllGo "a".toList "c".toList
                  (joinLines exCtxAba.contextLines).toList.length
                  (joinLines exCtxAba.contextLines).toList).asString = "" then []
              else jsSplit "\n" (replaceAllGo "a".toList "c".toList
                  (joinLines exCtxAba.contextLines).toList.length
                  (joinLines exCtxAba.contextLines).toList).asString)
          ++ (exEdAba.buffers exCtxAba.bufferId).drop (exCtxAba.endLine + 1) := by
  have h := accept_replaces_every_occurrence
    ⟨PredictionState.displayingProposedEdit exCtxAba exPredAba, 1, none⟩
    exEdAba exCtxAba exPredAba "a" rfl (by decide) rfl (by decide)
  exact ⟨h.1, h.2.1⟩

/-! ## Lemmas: prompt token-budget selection -/

theorem reverse_take_reverse_eq_drop {α : Type} (l : List α) (j : Nat) :
    (l.reverse.take j).reverse = l.drop (l.length - j) := by
  by_cases hj : j ≤ l.length
  · have h1 : l = l.take (l.length - j) ++ l.drop (l.length - j) :=
      (List.take_append_drop _ _).symm
    have hlen : ((l.drop (l.length - j)).reverse).length = j := by
      simp
      omega
    conv_lhs => rw [h1]
    rw [List.reverse_append, List.take_left' hlen, List.reverse_reverse]
  · push_neg at hj
    have h0 : l.length - j = 0 := by omega
    rw [h0, List.drop_zero, List.take_of_length_le (by simp; omega), List.reverse_reverse]

theorem sumTokens_reverse (l : List RecentChange) : sumTokens l.reverse = sumTokens l := by
  rw [sumTokens, sumTokens, List.map_reverse, List.sum_reverse]

/-- Characterization of the selection loop: some prefix of the
most-recent-first list is selected; its formatted entries are emitted oldest
first in front of the accumulator; the selected costs fit the remaining
budget; and the loop stopped either at the end of the list or at the first
change that would overflow the budget. -/
theorem selectLoop_spec (B : Nat) :
    ∀ (rev : List RecentChange) (tc : Nat) (acc : List String), tc ≤ B →
      ∃ j, j ≤ rev.length
        ∧ selectLoop B rev tc acc = ((rev.take j).map formatChange).reverse ++ acc
        ∧ tc + sumTokens (rev.take j) ≤ B
        ∧ (j = rev.length ∨ B < tc + sumTokens (rev.take (j + 1))) := by
  intro rev
  induction rev with
  | nil =>
    intro tc acc htc
    refine ⟨0, Nat.le_refl 0, rfl, ?_, Or.inl rfl⟩
    simpa [sumTokens] using htc
  | cons ch rest ih =>
    intro tc acc htc
    rw [selectLoop]
    by_cases hb : B < tc + estimatedTokens ch
    · rw [if_pos hb]
      refine ⟨0, Nat.zero_le _, rfl, by simpa [sumTokens] using htc, Or.inr ?_⟩
      simpa [sumTokens] using hb
    · rw [if_neg hb]
      push_neg at hb
      obtain ⟨j, hj, heq, hbud, hstop⟩ := ih (tc + estimatedTokens ch)
        (formatChange ch :: acc) hb
      refine ⟨j + 1, by simpa using Nat.succ_le_succ hj, ?_, ?_, ?_⟩
      · rw [heq, List.take_succ_cons]
        simp
      · rw [List.take_succ_cons]
        simp only [sumTokens, List.map_cons, List.sum_cons]
        simp only [sumTokens] at hbud
        omega
      · rcases hstop with h | h
        · exact Or.inl (by simp [h])
        · refine Or.inr ?_
          rw [List.take_succ_cons]
          simp only [sumTokens, List.map_cons, List.sum_cons]
          simp only [sumTokens] at h
          omega

/-- **C7.** The default token budget is 1000, and for every budget and
recent-change list the prompt builder's selection is a suffix of the change
list formatted in chronological order, whose estimated cost (each change
costing `ceil(length/3)` tokens) fits the budget, chosen greedily
most-recent-first: either everything was selected, or the next older change
would push the cumulative estimate over the budget. -/
theorem prompt_budget_selection :
    DEFAULT_RECENT_CHANGE_TOKEN_BUDGET = 1000
    ∧ ∀ (tokenBudget : Nat) (recentChanges : List RecentChange),
      ∃ k, k ≤ recentChanges.length
        ∧ selectRecentChanges tokenBudget recentChanges
            = (recentChanges.drop k).map formatChange
        ∧ sumTokens (recentChanges.drop k) ≤ tokenBudget
        ∧ (k = 0 ∨ tokenBudget < sumTokens (recentChanges.drop (k - 1))) := by
  refine ⟨rfl, fun B cs => ?_⟩
  obtain ⟨j, hj, heq, hbud, hstop⟩ := selectLoop_spec B cs.reverse 0 [] (Nat.zero_le B)
  rw [List.length_reverse] at hj
  have hdropj : cs.reverse.take j = (cs.drop (cs.length - j)).reverse := by
    rw [← reverse_take_reverse_eq_drop, List.reverse_reverse]
  refine ⟨cs.length - j, Nat.sub_le _ _, ?_, ?_, ?_⟩
  · rw [selectRecentChanges, heq, List.append_nil, ← List.map_reverse, hdropj,
      List.reverse_reverse]
  · rw [hdropj, sumTokens_reverse] at hbud
    omega
  · rcases hstop with h | h
    · rw [List.length_reverse] at h
      exact Or.inl (by omega)
    · by_cases hjn : j = cs.length
      · exact Or.inl (by omega)
      · refine Or.inr ?_
        have hdropj1 : cs.reverse.take (j + 1) = (cs.drop (cs.length - (j + 1))).reverse := by
          rw [← reverse_take_reverse_eq_drop, List.reverse_reverse]
        rw [hdropj1, sumTokens_reverse] at h
        have : cs.length - j - 1 = cs.length - (j + 1) := by omega
        rw [this]
        omega

end Violet
